import Mathlib

/-!
Verification of the `collector` hybrid garbage collector (`src/collector.h`).

The collector augments reference counting (`std::shared_ptr`) with a tracing
mark-and-sweep pass.  The shallow embedding below models:

* a payload (`CollectableData`) as an 8-bit mark plus the list of managed
  handle fields its `collector_access` iterates (each field is `Option Nat`:
  `some i` is a strong handle to payload `i`, `none` an empty handle);
* the heap as a total function from payload ids to payloads;
* `std::shared_ptr` aliveness as an explicit `alive` list: a payload stays
  alive exactly while it has a strong reference from the root list, from a
  host-held handle, or from a field of another alive payload.  Dropping
  references triggers the reference-counting deallocation cascade, computed
  here as the greatest fixpoint of the "has a supporting strong reference"
  operator (`cascade`), which is exactly the set of payloads whose strong
  count never reaches zero;
* `mark_callback`'s recursion with explicit fuel (the C++ recursion is
  genuine; fuel `nextId + 1` is proven sufficient, and the result is proven
  independent of the fuel once it is large enough);
* the process-wide `Collector<any_type>::curr_mark` epoch as a `Nat` carried
  outside the per-type collector state and updated modulo 256.
-/

namespace GcCollector

/-- A managed payload: the `collector_mark` byte of `CollectableData`
together with the managed handle fields that `collector_access` applies the
collector's callback to, in order. -/
structure Payload where
  collector_mark : Nat
  fields : List (Option Nat)
deriving DecidableEq

/-- `Collector::reset_callback`: `ref->reset()` clears the handle. -/
def resetCb : Option Nat → Option Nat := fun _ => none

/-- Heap update at one payload id. -/
def setPayload (h : Nat → Payload) (i : Nat) (p : Payload) : Nat → Payload :=
  fun j => if j = i then p else h j

/-- Write `collector_mark := e` on payload `p` (what `mark_callback` does
before tracing the payload's contents). -/
def setMark (h : Nat → Payload) (p e : Nat) : Nat → Payload :=
  setPayload h p { h p with collector_mark := e }

/-- Per-type collector state (`Collector<T>`): the allocator counter for
fresh payload ids, the heap, the set of payloads that are still allocated
(`alive`), the `memory` vector of weak observers (a weak reference upgrades
exactly when its id is alive), the `root_list` vector of strong references
(entries can be null: hosts reset them in the tests), and the strong
references held by host code (the `Ref_t`s returned by `add`/`add_root`). -/
structure Col where
  nextId : Nat
  heap : Nat → Payload
  alive : List Nat
  memory : List Nat
  root_list : List (Option Nat)
  hostRefs : List Nat

/-- `Collector::add`: allocate a payload, append a weak observer to
`memory`, return the owning strong reference (held by the host). -/
def add (c : Col) (value : Payload) : Nat × Col :=
  let id := c.nextId
  (id, { c with
          nextId := id + 1
          heap := setPayload c.heap id value
          alive := id :: c.alive
          memory := c.memory ++ [id]
          hostRefs := id :: c.hostRefs })

/-- `Collector::add_root`: allocate a payload, append a strong reference to
`root_list`, return the owning strong reference (held by the host).  Note
that the source does not append a weak observer to `memory` here. -/
def add_root (c : Col) (value : Payload) : Nat × Col :=
  let id := c.nextId
  (id, { c with
          nextId := id + 1
          heap := setPayload c.heap id value
          alive := id :: c.alive
          root_list := c.root_list ++ [some id]
          hostRefs := id :: c.hostRefs })

/-- Ids strongly referenced from the root list (non-null entries). -/
def rootIds (c : Col) : List Nat := c.root_list.filterMap id

/-- All strong references that do not come from payload fields: root-list
entries plus host-held handles. -/
def extRefs (c : Col) : List Nat := rootIds c ++ c.hostRefs

/-- A payload `p` has a supporting strong reference: an external one, or a
field of an alive payload. -/
def supportedBy (h : Nat → Payload) (ext A : List Nat) (p : Nat) : Prop :=
  p ∈ ext ∨ ∃ q ∈ A, some p ∈ (h q).fields

instance (h : Nat → Payload) (ext A : List Nat) (p : Nat) :
    Decidable (supportedBy h ext A p) := by
  unfold supportedBy; infer_instance

/-- One round of reference-counting deallocation: drop every payload with no
remaining strong reference. -/
def pruneStep (h : Nat → Payload) (ext : List Nat) (A : List Nat) : List Nat :=
  A.filter (fun p => decide (supportedBy h ext A p))

/-- Iterated deallocation rounds. -/
def cascade (h : Nat → Payload) (ext : List Nat) : Nat → List Nat → List Nat
  | 0, A => A
  | n + 1, A => cascade h ext n (pruneStep h ext A)

/-- The full deallocation cascade: after `|A|` rounds the pruning has
reached its fixpoint, the set of payloads whose strong count stays
positive. -/
def runCascade (h : Nat → Payload) (ext : List Nat) (A : List Nat) : List Nat :=
  cascade h ext A.length A

/-- `Collector::mark_callback` with explicit recursion fuel: on a null
reference or an already-marked payload it returns; otherwise it stamps the
payload with the current mark and traces each of its fields
(`collector_access(mark_callback)`). -/
def markCb (e : Nat) : Nat → (Nat → Payload) → Option Nat → (Nat → Payload)
  | 0, h, _ => h
  | _ + 1, h, none => h
  | fuel + 1, h, some p =>
    if (h p).collector_mark = e then h
    else ((h p).fields).foldl (markCb e fuel) (setMark h p e)

/-- `Collector::mark`: run `mark_callback` on every root-list entry. -/
def markList (e fuel : Nat) (h : Nat → Payload) (roots : List (Option Nat)) :
    Nat → Payload :=
  roots.foldl (markCb e fuel) h

/-- The heap after `ref->collector_access(reset_callback)` on payload `p`:
every managed handle field of `p` is reset. -/
def sweptHeap (c : Col) (p : Nat) : Nat → Payload :=
  setPayload c.heap p
    { c.heap p with fields := ((c.heap p).fields).map resetCb }

/-- One iteration of `Collector::sweep` on weak observer `p`, threading the
list of payloads on which the reset callback fired.  The weak reference
upgrades iff `p` is alive; if its mark differs from the current mark, all of
its fields are reset, and the reference-counting cascade then reclaims every
payload this leaves without strong references. -/
def sweepStep (e : Nat) (acc : Col × List Nat) (p : Nat) : Col × List Nat :=
  if p ∈ acc.1.alive ∧ (acc.1.heap p).collector_mark ≠ e then
    ({ acc.1 with
        heap := sweptHeap acc.1 p
        alive := runCascade (sweptHeap acc.1 p) (extRefs acc.1) acc.1.alive },
      acc.2 ++ [p])
  else acc

/-- `Collector::sweep` over the whole `memory` vector. -/
def sweepGo (e : Nat) (c : Col) : Col × List Nat :=
  c.memory.foldl (sweepStep e) (c, [])

/-- `Collector::count_empty_space`: weak observers that fail to upgrade. -/
def count_empty_space (c : Col) : Nat :=
  c.memory.countP (fun p => decide (p ∉ c.alive))

/-- The loop of `Collector::organize_memory`: walk the original vector,
re-writing each entry whose upgrade succeeds into the next free slot of the
prefix (`memory[next++] = wref`). -/
def organizeLoop (f : Nat → Bool) : List Nat → List Nat → Nat → List Nat × Nat
  | [], mem, next => (mem, next)
  | w :: ws, mem, next =>
    if f w then organizeLoop f ws (mem.set next w) (next + 1)
    else organizeLoop f ws mem next

/-- `Collector::organize_memory` on the bookkeeping vector: compact the live
entries into a prefix, then truncate (`memory.resize(next)`). -/
def organizeList (f : Nat → Bool) (mem : List Nat) : List Nat :=
  let r := organizeLoop f mem mem 0
  r.1.take r.2

/-- `Collector::organize_memory` on the collector state. -/
def organize_memory (c : Col) : Col :=
  { c with memory := organizeList (fun p => decide (p ∈ c.alive)) c.memory }

/-- Result of one `mark_and_sweep` call: the new shared epoch, the new
collector state, the payloads the reset callback fired on (in order), and
whether compaction ran. -/
structure MSResult where
  epoch : Nat
  col : Col
  resets : List Nat
  compacted : Bool

/-- The collector state right after the mark pass of `mark_and_sweep`
(epoch already bumped to `(e + 1) % 256`). -/
def msMarkedCol (fuel e : Nat) (c : Col) : Col :=
  { c with heap := markList ((e + 1) % 256) fuel c.heap c.root_list }

/-- The collector state right after the sweep pass of `mark_and_sweep`,
with the reset log. -/
def msSwept (fuel e : Nat) (c : Col) : Col × List Nat :=
  sweepGo ((e + 1) % 256) (msMarkedCol fuel e c)

/-- `Collector::mark_and_sweep`: bump the process-wide mark, mark from the
roots, sweep, and compact when the dead observers exceed
`ORGANIZATION_THRESHOLD` (`thr`) times the vector size. -/
def mark_and_sweep (thr : ℚ) (fuel e : Nat) (c : Col) : MSResult :=
  let c2 := (msSwept fuel e c).1
  ⟨(e + 1) % 256,
    if (count_empty_space c2 : ℚ) > (c2.memory.length : ℚ) * thr then
      organize_memory c2
    else c2,
    (msSwept fuel e c).2,
    decide ((count_empty_space c2 : ℚ) > (c2.memory.length : ℚ) * thr)⟩

/-- Reachability from the root list by chains of managed handle fields. -/
inductive Reaches (h : Nat → Payload) (roots : List (Option Nat)) : Nat → Prop
  | root (p : Nat) : some p ∈ roots → Reaches h roots p
  | step (q p : Nat) : Reaches h roots q → some p ∈ (h q).fields →
      Reaches h roots p

/-- A handle is within the allocated id range (or null). -/
def TargetOk (N : Nat) : Option Nat → Prop
  | none => True
  | some p => p < N

instance (N : Nat) : (f : Option Nat) → Decidable (TargetOk N f)
  | none => isTrue trivial
  | some p => Nat.decLt p N

/-- Every field of every allocated payload points inside the allocated
range. -/
def ClosedHeap (N : Nat) (h : Nat → Payload) : Prop :=
  ∀ q, q < N → ∀ f ∈ (h q).fields, TargetOk N f

/-- Every root-list entry points inside the allocated range. -/
def ClosedRoots (N : Nat) (roots : List (Option Nat)) : Prop :=
  ∀ f ∈ roots, TargetOk N f

/-- The collector state only references allocated payloads (true of every
state produced by the public interface). -/
def Closed (c : Col) : Prop :=
  ClosedHeap c.nextId c.heap ∧ ClosedRoots c.nextId c.root_list

instance (N : Nat) (h : Nat → Payload) : Decidable (ClosedHeap N h) := by
  unfold ClosedHeap; infer_instance

instance (N : Nat) (roots : List (Option Nat)) :
    Decidable (ClosedRoots N roots) := by
  unfold ClosedRoots; infer_instance

instance (c : Col) : Decidable (Closed c) := by
  unfold Closed; infer_instance

/-- What one or more `mark_callback` invocations can do to the heap: every
payload keeps its fields, and its mark is either untouched or set to the
current epoch. -/
def MarkEvolves (e : Nat) (h h' : Nat → Payload) : Prop :=
  ∀ q, (h' q).fields = (h q).fields ∧
    ((h' q).collector_mark = (h q).collector_mark ∨ (h' q).collector_mark = e)

/-- Number of allocated payloads not carrying the current mark: the measure
that bounds the depth of `mark_callback`'s recursion. -/
def unmarkedCount (e N : Nat) (h : Nat → Payload) : Nat :=
  ((Finset.range N).filter (fun p => (h p).collector_mark ≠ e)).card

/-- Two collector instantiations (two payload types) sharing the single
process-wide `Collector<any_type>::curr_mark` counter. -/
structure GState where
  epoch : Nat
  colA : Col
  colB : Col

/-- `mark_and_sweep` on the first instantiation. -/
def msA (thr : ℚ) (fuel : Nat) (g : GState) : GState :=
  let r := mark_and_sweep thr fuel g.epoch g.colA
  ⟨r.epoch, r.col, g.colB⟩

/-- `mark_and_sweep` on the second instantiation. -/
def msB (thr : ℚ) (fuel : Nat) (g : GState) : GState :=
  let r := mark_and_sweep thr fuel g.epoch g.colB
  ⟨r.epoch, g.colA, r.col⟩

/-- `add` on the first instantiation. -/
def addA (g : GState) (v : Payload) : GState :=
  { g with colA := (add g.colA v).2 }

/-- `add` on the second instantiation. -/
def addB (g : GState) (v : Payload) : GState :=
  { g with colB := (add g.colB v).2 }

/-- `add_root` on the first instantiation. -/
def addRootA (g : GState) (v : Payload) : GState :=
  { g with colA := (add_root g.colA v).2 }

/-- `add_root` on the second instantiation. -/
def addRootB (g : GState) (v : Payload) : GState :=
  { g with colB := (add_root g.colB v).2 }

/-- Compaction on the first instantiation. -/
def orgA (g : GState) : GState := { g with colA := organize_memory g.colA }

/-- Compaction on the second instantiation. -/
def orgB (g : GState) : GState := { g with colB := organize_memory g.colB }

/-! Concrete collector states used to test the claims. -/

/-- The all-zero payload. -/
def pay0 : Payload := ⟨0, []⟩

/-- A freshly constructed collector. -/
def col0 : Col := ⟨0, fun _ => pay0, [], [], [], []⟩

/-- Heap for the epoch-collision scenario: the root payload `0` points at
`1`, which points at `2`; payload `1` carries the stale mark `1`, which is
exactly the epoch the next collection will use. -/
def h3 : Nat → Payload :=
  setPayload (setPayload (setPayload (fun _ => pay0)
    0 ⟨0, [some 1]⟩) 1 ⟨1, [some 2]⟩) 2 ⟨0, []⟩

/-- Epoch-collision state: `0` rooted, `1` and `2` tracked, all alive. -/
def cex3 : Col := ⟨3, h3, [0, 1, 2], [1, 2], [some 0], []⟩

/-- Heap with payload `0` (mark `0`) owning a handle to payload `1`. -/
def h2w : Nat → Payload :=
  setPayload (setPayload (fun _ => pay0) 0 ⟨0, [some 1]⟩) 1 ⟨0, []⟩

/-- Two tracked payloads, no roots, the host holding `0` alive; `0`'s mark
equals the current epoch `0`. -/
def c2w : Col := ⟨2, h2w, [0, 1], [0, 1], [], [0]⟩

/-- Like `h2w` but payload `0` already stamped with mark `1`, the epoch the
next collection will use. -/
def h5w : Nat → Payload :=
  setPayload (setPayload (fun _ => pay0) 0 ⟨1, [some 1]⟩) 1 ⟨0, []⟩

/-- State for the frame property: `0`'s mark equals the post-bump epoch. -/
def w5 : Col := ⟨2, h5w, [0, 1], [0, 1], [], [0]⟩

/-- A single rooted payload with no children. -/
def w3 : Col := ⟨1, setPayload (fun _ => pay0) 0 ⟨0, []⟩, [0], [], [some 0], []⟩

/-- A single tracked, unrooted payload kept alive by the host. -/
def w4 : Col := ⟨1, setPayload (fun _ => pay0) 0 ⟨0, []⟩, [0], [0], [], [0]⟩

/-- A two-payload reference cycle, rooted at `0`. -/
def w9 : Col :=
  ⟨2, setPayload (setPayload (fun _ => pay0) 0 ⟨0, [some 1]⟩) 1 ⟨0, [some 0]⟩,
    [0, 1], [0, 1], [some 0], []⟩

/-! Basic projection lemmas for `mark_and_sweep`. -/

theorem ms_epoch (thr : ℚ) (fuel e : Nat) (c : Col) :
    (mark_and_sweep thr fuel e c).epoch = (e + 1) % 256 := rfl

theorem ms_resets (thr : ℚ) (fuel e : Nat) (c : Col) :
    (mark_and_sweep thr fuel e c).resets = (msSwept fuel e c).2 := rfl

theorem ms_compacted (thr : ℚ) (fuel e : Nat) (c : Col) :
    (mark_and_sweep thr fuel e c).compacted =
      decide ((count_empty_space (msSwept fuel e c).1 : ℚ) >
        ((msSwept fuel e c).1.memory.length : ℚ) * thr) := rfl

theorem ms_col_heap (thr : ℚ) (fuel e : Nat) (c : Col) :
    (mark_and_sweep thr fuel e c).col.heap = (msSwept fuel e c).1.heap := by
  simp only [mark_and_sweep]
  split <;> rfl

theorem ms_col_alive (thr : ℚ) (fuel e : Nat) (c : Col) :
    (mark_and_sweep thr fuel e c).col.alive = (msSwept fuel e c).1.alive := by
  simp only [mark_and_sweep]
  split <;> rfl

/-! The mark pass: `mark_callback` only stamps marks with the current epoch
and never touches fields. -/

theorem markEvolves_refl (e : Nat) (h : Nat → Payload) : MarkEvolves e h h :=
  fun _ => ⟨rfl, Or.inl rfl⟩

theorem markEvolves_trans {e : Nat} {h1 h2 h3 : Nat → Payload}
    (a : MarkEvolves e h1 h2) (b : MarkEvolves e h2 h3) :
    MarkEvolves e h1 h3 := by
  intro q
  refine ⟨(b q).1.trans (a q).1, ?_⟩
  rcases (b q).2 with hb | hb
  · rw [hb]; exact (a q).2
  · exact Or.inr hb

theorem markEvolves_setMark (e : Nat) (h : Nat → Payload) (p : Nat) :
    MarkEvolves e h (setMark h p e) := by
  intro q
  unfold setMark setPayload
  by_cases hq : q = p
  · subst hq; exact ⟨by simp, by simp⟩
  · simp [hq]

theorem foldl_markEvolves (e n : Nat)
    (hstep : ∀ (h : Nat → Payload) (r : Option Nat),
      MarkEvolves e h (markCb e n h r)) :
    ∀ (l : List (Option Nat)) (h : Nat → Payload),
      MarkEvolves e h (l.foldl (markCb e n) h) := by
  intro l
  induction l with
  | nil => intro h; exact markEvolves_refl e h
  | cons f fs ih =>
    intro h
    rw [List.foldl_cons]
    exact markEvolves_trans (hstep h f) (ih (markCb e n h f))

theorem markCb_evolves (e : Nat) :
    ∀ (fuel : Nat) (h : Nat → Payload) (r : Option Nat),
      MarkEvolves e h (markCb e fuel h r) := by
  intro fuel
  induction fuel with
  | zero => intro h r; exact markEvolves_refl e h
  | succ n ih =>
    intro h r
    match r with
    | none => exact markEvolves_refl e h
    | some p =>
      rw [markCb]
      split
      · exact markEvolves_refl e h
      · exact markEvolves_trans (markEvolves_setMark e h p)
          (foldl_markEvolves e n ih _ _)

theorem markList_evolves (e fuel : Nat) (h : Nat → Payload)
    (roots : List (Option Nat)) :
    MarkEvolves e h (markList e fuel h roots) :=
  foldl_markEvolves e fuel (markCb_evolves e fuel) roots h

theorem markEvolves_marked {e : Nat} {h h' : Nat → Payload}
    (hev : MarkEvolves e h h') (q : Nat)
    (hq : (h q).collector_mark = e) : (h' q).collector_mark = e := by
  rcases (hev q).2 with hm | hm
  · rw [hm, hq]
  · exact hm

/-- `mark_callback` with positive fuel stamps the payload it is called on. -/
theorem markCb_marks_self (e : Nat) :
    ∀ (fuel : Nat) (h : Nat → Payload) (p : Nat), 0 < fuel →
      ((markCb e fuel h (some p)) p).collector_mark = e := by
  intro fuel h p hfuel
  match fuel, hfuel with
  | n + 1, _ =>
    rw [markCb]
    split
    · assumption
    · exact markEvolves_marked (foldl_markEvolves e n (markCb_evolves e n) _ _)
        p (by simp [setMark, setPayload])

/-- Folding `mark_callback` over a list of references stamps every non-null
entry. -/
theorem markFold_marks_mem (e n : Nat) (hn : 0 < n) :
    ∀ (l : List (Option Nat)) (h : Nat → Payload) (p : Nat),
      some p ∈ l → ((l.foldl (markCb e n) h) p).collector_mark = e := by
  intro l
  induction l with
  | nil => intro h p hp; cases hp
  | cons f fs ih =>
    intro h p hp
    rw [List.foldl_cons]
    rcases List.mem_cons.mp hp with hf | hf
    · subst hf
      exact markEvolves_marked (foldl_markEvolves e n (markCb_evolves e n) fs _)
        p (markCb_marks_self e n h p hn)
    · exact ih _ p hf

/-! The recursion measure: the number of allocated payloads not yet
carrying the current epoch. -/

theorem unmarkedCount_le (e N : Nat) (h : Nat → Payload) :
    unmarkedCount e N h ≤ N := by
  calc unmarkedCount e N h ≤ (Finset.range N).card := Finset.card_filter_le _ _
    _ = N := Finset.card_range N

theorem unmarkedCount_mono (e N : Nat) {h h' : Nat → Payload}
    (hev : MarkEvolves e h h') :
    unmarkedCount e N h' ≤ unmarkedCount e N h := by
  apply Finset.card_le_card
  intro q hq
  rw [Finset.mem_filter] at hq ⊢
  refine ⟨hq.1, fun hc => hq.2 ?_⟩
  exact markEvolves_marked hev q hc

theorem unmarkedCount_setMark_lt (e N : Nat) (h : Nat → Payload) (p : Nat)
    (hp : p < N) (hm : (h p).collector_mark ≠ e) :
    unmarkedCount e N (setMark h p e) < unmarkedCount e N h := by
  apply Finset.card_lt_card
  constructor
  · intro q hq
    rw [Finset.mem_filter] at hq ⊢
    refine ⟨hq.1, fun hc => hq.2 ?_⟩
    exact markEvolves_marked (markEvolves_setMark e h p) q hc
  · intro hsub
    have hpmem : p ∈ (Finset.range N).filter
        (fun q => (h q).collector_mark ≠ e) := by
      rw [Finset.mem_filter]
      exact ⟨Finset.mem_range.mpr hp, hm⟩
    have := hsub hpmem
    rw [Finset.mem_filter] at this
    exact this.2 (by simp [setMark, setPayload])

/-- A heap evolution that keeps every payload's fields keeps the heap
closed. -/
theorem closedHeap_of_fields_eq {N : Nat} {h h' : Nat → Payload}
    (hf : ∀ q, (h' q).fields = (h q).fields) (hcl : ClosedHeap N h) :
    ClosedHeap N h' := by
  intro q hq f hfm
  exact hcl q hq f (by rw [hf q] at hfm; exact hfm)

/-! Completeness of the depth-first mark pass: once a payload comes out
marked, either it was already marked beforehand or all of its children are
marked as well. -/

theorem markFold_closure (e N m : Nat)
    (hcb : ∀ (h : Nat → Payload) (r : Option Nat),
      unmarkedCount e N h < m → ClosedHeap N h → TargetOk N r →
      ∀ q, ((markCb e m h r) q).collector_mark = e →
        (h q).collector_mark = e ∨
        (∀ f ∈ (h q).fields, ∀ s, f = some s →
          ((markCb e m h r) s).collector_mark = e)) :
    ∀ (l : List (Option Nat)) (h : Nat → Payload),
      unmarkedCount e N h < m → ClosedHeap N h → (∀ f ∈ l, TargetOk N f) →
      ∀ q, ((l.foldl (markCb e m) h) q).collector_mark = e →
        (h q).collector_mark = e ∨
        (∀ f ∈ (h q).fields, ∀ s, f = some s →
          ((l.foldl (markCb e m) h) s).collector_mark = e) := by
  intro l
  induction l with
  | nil => intro h _ _ _ q hq; exact Or.inl hq
  | cons f fs ih =>
    intro h hU hcl htg q hq
    rw [List.foldl_cons] at hq ⊢
    have hev2 : MarkEvolves e h (markCb e m h f) := markCb_evolves e m h f
    have hU2 : unmarkedCount e N (markCb e m h f) < m :=
      lt_of_le_of_lt (unmarkedCount_mono e N hev2) hU
    have hcl2 : ClosedHeap N (markCb e m h f) :=
      closedHeap_of_fields_eq (fun q => (hev2 q).1) hcl
    have htg2 : ∀ g ∈ fs, TargetOk N g := fun g hg =>
      htg g (List.mem_cons_of_mem f hg)
    rcases ih (markCb e m h f) hU2 hcl2 htg2 q hq with h1 | h1
    · rcases hcb h f hU hcl (htg f (List.mem_cons_self f fs)) q h1 with h0 | h0
      · exact Or.inl h0
      · refine Or.inr fun fl hfl s hs => ?_
        exact markEvolves_marked
          (foldl_markEvolves e m (markCb_evolves e m) fs (markCb e m h f)) s
          (h0 fl hfl s hs)
    · refine Or.inr fun fl hfl s hs => ?_
      exact h1 fl (by rw [(hev2 q).1]; exact hfl) s hs

theorem markCb_closure (e N : Nat) :
    ∀ (fuel : Nat) (h : Nat → Payload) (r : Option Nat),
      unmarkedCount e N h < fuel → ClosedHeap N h → TargetOk N r →
      ∀ q, ((markCb e fuel h r) q).collector_mark = e →
        (h q).collector_mark = e ∨
        (∀ f ∈ (h q).fields, ∀ s, f = some s →
          ((markCb e fuel h r) s).collector_mark = e) := by
  intro fuel
  induction fuel using Nat.strong_induction_on with
  | _ fuel ih =>
    match fuel with
    | 0 => intro h r hU; exact absurd hU (Nat.not_lt_zero _)
    | m + 1 =>
      intro h r hU hcl htg q hq
      match r with
      | none => exact Or.inl hq
      | some p =>
        rw [markCb] at hq ⊢
        by_cases hpm : (h p).collector_mark = e
        · rw [if_pos hpm] at hq ⊢; exact Or.inl hq
        · rw [if_neg hpm] at hq ⊢
          have hpN : p < N := htg
          have hlt : unmarkedCount e N (setMark h p e) < unmarkedCount e N h :=
            unmarkedCount_setMark_lt e N h p hpN hpm
          have hUm : unmarkedCount e N (setMark h p e) < m := by omega
          have hm1 : 0 < m := by omega
          have hcl1 : ClosedHeap N (setMark h p e) :=
            closedHeap_of_fields_eq
              (fun q => (markEvolves_setMark e h p q).1) hcl
          have htgf : ∀ g ∈ (h p).fields, TargetOk N g :=
            fun g hg => hcl p hpN g hg
          rcases markFold_closure e N m
              (fun h' r' => ih m (Nat.lt_succ_self m) h' r')
              (h p).fields (setMark h p e) hUm hcl1 htgf q hq with h1 | h1
          · by_cases hqp : q = p
            · subst hqp
              refine Or.inr fun fl hfl s hs => ?_
              exact markFold_marks_mem e m hm1 (h q).fields (setMark h q e) s
                (hs ▸ hfl)
            · left
              have : ((setMark h p e) q).collector_mark =
                  (h q).collector_mark := by
                simp [setMark, setPayload, hqp]
              rw [this] at h1
              exact h1
          · refine Or.inr fun fl hfl s hs => ?_
            exact h1 fl (by rw [(markEvolves_setMark e h p q).1]; exact hfl) s hs

/-- Completeness of the mark pass: when no payload reachable from the roots
is already stamped with the (post-bump) epoch, the mark pass stamps every
payload reachable from the roots. -/
theorem markList_complete (e N fuel : Nat) (h : Nat → Payload)
    (roots : List (Option Nat)) (hcl : ClosedHeap N h)
    (hro : ClosedRoots N roots) (hfuel : unmarkedCount e N h < fuel)
    (hnc : ∀ q, Reaches h roots q → (h q).collector_mark ≠ e) :
    ∀ p, Reaches h roots p →
      ((markList e fuel h roots) p).collector_mark = e := by
  intro p hp
  induction hp with
  | root p hmem => exact markFold_marks_mem e fuel (by omega) roots h p hmem
  | step q p hq hf ihq =>
    rcases markFold_closure e N fuel (markCb_closure e N fuel) roots h hfuel
      hcl hro q ihq with h1 | h1
    · exact absurd h1 (hnc q hq)
    · exact h1 (some p) hf p rfl

/-! Fuel-irrelevance of the mark pass: an already-marked payload is never
re-traced, so the recursion depth is bounded by the number of unmarked
payloads and any fuel beyond that bound produces the same heap. -/

theorem markFold_fuel_irrel_aux (e N a b u1 : Nat)
    (hcb : ∀ (h : Nat → Payload) (r : Option Nat),
      unmarkedCount e N h ≤ u1 → ClosedHeap N h → TargetOk N r →
      markCb e a h r = markCb e b h r) :
    ∀ (l : List (Option Nat)) (h : Nat → Payload),
      unmarkedCount e N h ≤ u1 → ClosedHeap N h → (∀ f ∈ l, TargetOk N f) →
      l.foldl (markCb e a) h = l.foldl (markCb e b) h := by
  intro l
  induction l with
  | nil => intro h _ _ _; rfl
  | cons f fs ih =>
    intro h hU hcl htg
    rw [List.foldl_cons, List.foldl_cons,
      ← hcb h f hU hcl (htg f (List.mem_cons_self f fs))]
    exact ih (markCb e a h f)
      (le_trans (unmarkedCount_mono e N (markCb_evolves e a h f)) hU)
      (closedHeap_of_fields_eq (fun q => ((markCb_evolves e a h f) q).1) hcl)
      (fun g hg => htg g (List.mem_cons_of_mem f hg))

theorem markCb_fuel_irrel (e N : Nat) :
    ∀ (u : Nat) (h : Nat → Payload), unmarkedCount e N h = u →
      ClosedHeap N h → ∀ (a b : Nat) (r : Option Nat), u < a → u < b →
      TargetOk N r → markCb e a h r = markCb e b h r := by
  intro u
  induction u using Nat.strong_induction_on with
  | _ u ih =>
    intro h hu hcl a b r ha hb htg
    cases a with
    | zero => omega
    | succ a' =>
      cases b with
      | zero => omega
      | succ b' =>
        match r with
        | none => rfl
        | some p =>
          rw [markCb, markCb]
          by_cases hpm : (h p).collector_mark = e
          · rw [if_pos hpm, if_pos hpm]
          · rw [if_neg hpm, if_neg hpm]
            have hpN : p < N := htg
            have hlt := unmarkedCount_setMark_lt e N h p hpN hpm
            refine markFold_fuel_irrel_aux e N a' b' (u - 1)
              (fun h' r' hu' hcl' htg' =>
                ih (unmarkedCount e N h') (by omega) h' rfl hcl' a' b' r'
                  (by omega) (by omega) htg')
              (h p).fields (setMark h p e) (by omega)
              (closedHeap_of_fields_eq
                (fun q => (markEvolves_setMark e h p q).1) hcl)
              (fun g hg => hcl p hpN g hg)

theorem markList_fuel_irrel (e N a b : Nat) (h : Nat → Payload)
    (roots : List (Option Nat)) (hcl : ClosedHeap N h)
    (hro : ClosedRoots N roots) (ha : unmarkedCount e N h < a)
    (hb : unmarkedCount e N h < b) :
    markList e a h roots = markList e b h roots :=
  markFold_fuel_irrel_aux e N a b (unmarkedCount e N h)
    (fun h' r' hu' hcl' htg' =>
      markCb_fuel_irrel e N (unmarkedCount e N h') h' rfl hcl' a b r'
        (by omega) (by omega) htg')
    roots h (le_refl _) hcl hro

/-! Compaction: the in-place prefix-compaction loop computes the filter of
the live entries, preserving their relative order. -/

theorem take_set_self (l : List Nat) (n : Nat) (w : Nat) :
    (l.set n w).take n = l.take n := by
  by_cases h : n < l.length
  · rw [List.set_eq_take_cons_drop w h, List.take_append_eq_append_take]
    simp [List.take_take]
    omega
  · rw [List.set_eq_of_length_le (Nat.le_of_not_lt h)]

theorem take_succ_set (l : List Nat) (n : Nat) (w : Nat) (h : n < l.length) :
    (l.set n w).take (n + 1) = l.take n ++ [w] := by
  rw [List.set_eq_take_cons_drop w h, List.take_append_eq_append_take]
  simp [List.take_take, List.length_take, Nat.min_eq_left (Nat.le_of_lt h)]

theorem organizeLoop_spec (f : Nat → Bool) :
    ∀ (ws mem : List Nat) (next : Nat), next + ws.length ≤ mem.length →
      (organizeLoop f ws mem next).2 = next + (ws.filter f).length ∧
      (organizeLoop f ws mem next).1.length = mem.length ∧
      (organizeLoop f ws mem next).1.take (organizeLoop f ws mem next).2 =
        mem.take next ++ ws.filter f := by
  intro ws
  induction ws with
  | nil => intro mem next _; simp [organizeLoop]
  | cons w ws ih =>
    intro mem next hlen
    by_cases hw : f w
    · have hnext : next < mem.length := by
        simp at hlen; omega
      have hrec := ih (mem.set next w) (next + 1)
        (by simp at hlen ⊢; omega)
      simp only [organizeLoop, hw, if_true]
      refine ⟨?_, ?_, ?_⟩
      · rw [hrec.1, List.filter_cons_of_pos hw]; simp; omega
      · rw [hrec.2.1, List.length_set]
      · rw [hrec.2.2, take_succ_set mem next w hnext,
          List.filter_cons_of_pos hw]
        simp
    · have hrec := ih mem next (by simp at hlen ⊢; omega)
      simp only [organizeLoop, hw, if_false, Bool.false_eq_true]
      rw [List.filter_cons_of_neg (by simpa using hw)]
      exact hrec

theorem organizeList_eq_filter (f : Nat → Bool) (mem : List Nat) :
    organizeList f mem = mem.filter f := by
  have h := organizeLoop_spec f mem mem 0 (by simp)
  unfold organizeList
  rw [h.2.2]
  simp

/-- C7: compaction keeps exactly the tracked entries whose weak-to-strong
upgrade succeeds, in their original relative order (the live entries are
re-written into a prefix and the vector is truncated to their count). -/
theorem organize_live_subsequence (c : Col) :
    (organize_memory c).memory =
      c.memory.filter (fun p => decide (p ∈ c.alive)) ∧
    (organize_memory c).memory.length =
      c.memory.countP (fun p => decide (p ∈ c.alive)) := by
  constructor
  · exact organizeList_eq_filter _ c.memory
  · rw [show (organize_memory c).memory =
        organizeList (fun p => decide (p ∈ c.alive)) c.memory from rfl,
      organizeList_eq_filter, List.countP_eq_length_filter]

/-- C1 counterexample: `add_root` does not append a weak observer to the
tracked sequence; on a fresh collector the tracked sequence stays empty, so
it does not grow by one as the claim states. -/
theorem add_root_tracked_unchanged_cex :
    (add_root col0 pay0).2.memory.length ≠ col0.memory.length + 1 := by
  decide

/-- C1 (amended): after `add_root(v)` returns, the roots sequence has grown
by exactly one entry — a strong reference to the newly allocated payload
that the returned `Ref` owns — while the tracked sequence is unchanged. -/
theorem add_root_spec (c : Col) (v : Payload) :
    (add_root c v).2.root_list = c.root_list ++ [some (add_root c v).1] ∧
    (add_root c v).2.root_list.length = c.root_list.length + 1 ∧
    (add_root c v).2.memory = c.memory ∧
    (add_root c v).2.heap (add_root c v).1 = v ∧
    (add_root c v).1 ∈ (add_root c v).2.alive ∧
    (add_root c v).1 ∈ (add_root c v).2.hostRefs ∧
    (add_root c v).1 = c.nextId := by
  refine ⟨rfl, by simp [add_root], rfl, by simp [add_root, setPayload],
    by simp [add_root], by simp [add_root], rfl⟩

/-- C10: both collector callbacks are null-safe — `mark_callback` on an
empty reference returns the heap unchanged, and `reset_callback` on an
empty handle leaves it empty. -/
theorem callbacks_null_safe :
    (∀ (e fuel : Nat) (h : Nat → Payload), markCb e fuel h none = h) ∧
    resetCb none = none := by
  refine ⟨fun e fuel h => ?_, rfl⟩
  cases fuel <;> rfl

/-- C8: every `mark_and_sweep` call, on either payload-type instantiation,
bumps the single process-wide 8-bit epoch by exactly one modulo 256 (and
leaves the other instantiation's state untouched, though the shared epoch it
observes has advanced); `add`, `add_root`, and compaction never change the
epoch. -/
theorem epoch_shared_bump (thr : ℚ) (fuel : Nat) (g : GState) (v : Payload) :
    (msA thr fuel g).epoch = (g.epoch + 1) % 256 ∧
    (msB thr fuel g).epoch = (g.epoch + 1) % 256 ∧
    (msA thr fuel g).colB = g.colB ∧
    (msB thr fuel g).colA = g.colA ∧
    (addA g v).epoch = g.epoch ∧
    (addRootA g v).epoch = g.epoch ∧
    (addB g v).epoch = g.epoch ∧
    (addRootB g v).epoch = g.epoch ∧
    (orgA g).epoch = g.epoch ∧
    (orgB g).epoch = g.epoch :=
  ⟨rfl, rfl, rfl, rfl, rfl, rfl, rfl, rfl, rfl, rfl⟩

/-- C6 counterexample: with threshold `0.0` compaction does not run on every
`mark_and_sweep` call — on a fresh collector no tracked entry fails to
upgrade, the dead count `0` is not strictly greater than `0 · 0`, and
compaction is skipped. -/
theorem threshold_zero_no_compaction_cex :
    (mark_and_sweep 0 1 0 col0).compacted = false := by
  rw [ms_compacted]
  rw [show count_empty_space (msSwept 1 0 col0).1 = 0 from rfl]
  norm_num

/-- C6 (amended): compaction runs during `mark_and_sweep` iff the number of
tracked entries whose upgrade fails, counted after the sweep, strictly
exceeds the threshold times the tracked length; with threshold `1.0` it
never runs, and with threshold `0.0` it runs exactly when at least one
tracked entry is dead after the sweep. -/
theorem compaction_threshold_spec :
    (∀ (thr : ℚ) (fuel e : Nat) (c : Col),
      (mark_and_sweep thr fuel e c).compacted = true ↔
        (count_empty_space (msSwept fuel e c).1 : ℚ) >
          ((msSwept fuel e c).1.memory.length : ℚ) * thr) ∧
    (∀ (fuel e : Nat) (c : Col),
      (mark_and_sweep 1 fuel e c).compacted = false) ∧
    (∀ (fuel e : Nat) (c : Col),
      ((mark_and_sweep 0 fuel e c).compacted = true ↔
        0 < count_empty_space (msSwept fuel e c).1)) := by
  refine ⟨fun thr fuel e c => ?_, fun fuel e c => ?_, fun fuel e c => ?_⟩
  · rw [ms_compacted, decide_eq_true_iff]
  · rw [ms_compacted, decide_eq_false_iff_not]
    rw [mul_one, gt_iff_lt, not_lt, Nat.cast_le]
    exact List.countP_le_length _
  · rw [ms_compacted, decide_eq_true_iff]
    rw [mul_zero, gt_iff_lt, Nat.cast_pos]

/-! The sweep pass: it never changes a mark, only shrinks the alive set,
and only ever clears fields. -/

theorem sweepStep_mark (e : Nat) (acc : Col × List Nat) (w q : Nat) :
    ((sweepStep e acc w).1.heap q).collector_mark =
      (acc.1.heap q).collector_mark := by
  unfold sweepStep
  split
  · by_cases hq : q = w
    · subst hq; simp [sweptHeap, setPayload]
    · simp [sweptHeap, setPayload, hq]
  · rfl

theorem sweepFold_mark (e : Nat) :
    ∀ (ms : List Nat) (acc : Col × List Nat) (q : Nat),
      ((ms.foldl (sweepStep e) acc).1.heap q).collector_mark =
        (acc.1.heap q).collector_mark := by
  intro ms
  induction ms with
  | nil => intro acc q; rfl
  | cons w ws ih =>
    intro acc q
    rw [List.foldl_cons, ih, sweepStep_mark]

theorem cascade_subset (h : Nat → Payload) (ext : List Nat) :
    ∀ (n : Nat) (A : List Nat), cascade h ext n A ⊆ A := by
  intro n
  induction n with
  | zero => intro A; exact List.Subset.refl A
  | succ n ih =>
    intro A
    exact List.Subset.trans (ih (pruneStep h ext A))
      (fun x hx => List.mem_of_mem_filter hx)

theorem sweepStep_alive_sub (e : Nat) (acc : Col × List Nat) (w : Nat) :
    (sweepStep e acc w).1.alive ⊆ acc.1.alive := by
  unfold sweepStep
  split
  · exact cascade_subset _ _ _ _
  · exact List.Subset.refl _

theorem sweepFold_alive_sub (e : Nat) :
    ∀ (ms : List Nat) (acc : Col × List Nat),
      (ms.foldl (sweepStep e) acc).1.alive ⊆ acc.1.alive := by
  intro ms
  induction ms with
  | nil => intro acc; exact List.Subset.refl _
  | cons w ws ih =>
    intro acc
    rw [List.foldl_cons]
    exact List.Subset.trans (ih (sweepStep e acc w))
      (sweepStep_alive_sub e acc w)

theorem allNone_map (fs : List (Option Nat)) :
    ∀ f ∈ fs.map resetCb, f = none := by
  intro f hf
  rcases List.mem_map.mp hf with ⟨x, _, hx⟩
  rw [← hx]; rfl

theorem sweepStep_fields_cases (e : Nat) (acc : Col × List Nat) (w q : Nat) :
    ((sweepStep e acc w).1.heap q).fields = (acc.1.heap q).fields ∨
    ((sweepStep e acc w).1.heap q).fields =
      ((acc.1.heap q).fields).map resetCb := by
  unfold sweepStep
  split
  · by_cases hq : q = w
    · subst hq; right; simp [sweptHeap, setPayload]
    · left; simp [sweptHeap, setPayload, hq]
  · left; rfl

theorem sweepFold_allNone_stable (e : Nat) :
    ∀ (ms : List Nat) (acc : Col × List Nat) (q : Nat),
      (∀ f ∈ (acc.1.heap q).fields, f = none) →
      ∀ f ∈ ((ms.foldl (sweepStep e) acc).1.heap q).fields, f = none := by
  intro ms
  induction ms with
  | nil => intro acc q hall; exact hall
  | cons w ws ih =>
    intro acc q hall
    rw [List.foldl_cons]
    apply ih (sweepStep e acc w) q
    rcases sweepStep_fields_cases e acc w q with hc | hc
    · rw [hc]; exact hall
    · rw [hc]; exact allNone_map _

/-- Any tracked payload that is still alive when the sweep finishes and
whose mark differs from the current mark when the sweep starts comes out
with all of its fields cleared. -/
theorem sweepFold_clears (e : Nat) :
    ∀ (ms : List Nat) (acc : Col × List Nat) (p : Nat),
      p ∈ ms → p ∈ (ms.foldl (sweepStep e) acc).1.alive →
      (acc.1.heap p).collector_mark ≠ e →
      ∀ f ∈ ((ms.foldl (sweepStep e) acc).1.heap p).fields, f = none := by
  intro ms
  induction ms with
  | nil => intro acc p hp; cases hp
  | cons w ws ih =>
    intro acc p hp halive hmark
    rw [List.foldl_cons] at halive ⊢
    rcases List.mem_cons.mp hp with hw | hw
    · subst hw
      have hal : p ∈ acc.1.alive :=
        sweepStep_alive_sub e acc p (sweepFold_alive_sub e ws _ halive)
      have hfields : ((sweepStep e acc p).1.heap p).fields =
          ((acc.1.heap p).fields).map resetCb := by
        unfold sweepStep
        rw [if_pos ⟨hal, hmark⟩]
        simp [sweptHeap, setPayload]
      exact sweepFold_allNone_stable e ws (sweepStep e acc p) p
        (by rw [hfields]; exact allNone_map _)
    · exact ih (sweepStep e acc w) p hw halive
        (by rw [sweepStep_mark]; exact hmark)

theorem sweepStep_resets_sub (e : Nat) (acc : Col × List Nat) (w p : Nat) :
    p ∈ (sweepStep e acc w).2 →
      p ∈ acc.2 ∨ (acc.1.heap p).collector_mark ≠ e := by
  unfold sweepStep
  split
  next hcond =>
    intro hp
    rcases List.mem_append.mp hp with h2 | h2
    · exact Or.inl h2
    · have hw : p = w := by simpa using h2
      subst hw
      exact Or.inr hcond.2
  next hcond => exact fun hp => Or.inl hp

/-- Every payload on which the reset callback fires during the sweep had a
mark different from the current mark when the sweep started. -/
theorem sweepFold_resets (e : Nat) :
    ∀ (ms : List Nat) (acc : Col × List Nat) (p : Nat),
      p ∈ (ms.foldl (sweepStep e) acc).2 →
      p ∈ acc.2 ∨ (acc.1.heap p).collector_mark ≠ e := by
  intro ms
  induction ms with
  | nil => intro acc p hp; exact Or.inl hp
  | cons w ws ih =>
    intro acc p hp
    rw [List.foldl_cons] at hp
    rcases ih (sweepStep e acc w) p hp with h1 | h1
    · rcases sweepStep_resets_sub e acc w p h1 with h2 | h2
      · exact Or.inl h2
      · exact Or.inr h2
    · rw [sweepStep_mark] at h1
      exact Or.inr h1

theorem sweepStep_skip_marked (e : Nat) (acc : Col × List Nat) (w p : Nat)
    (hm : (acc.1.heap p).collector_mark = e) :
    (sweepStep e acc w).1.heap p = acc.1.heap p := by
  unfold sweepStep
  split
  next hcond =>
    by_cases hq : p = w
    · subst hq; exact absurd hm hcond.2
    · simp [sweptHeap, setPayload, hq]
  next hcond => rfl

/-- A payload already stamped with the current mark is skipped by the whole
sweep: its heap entry is untouched. -/
theorem sweepFold_skip_marked (e : Nat) :
    ∀ (ms : List Nat) (acc : Col × List Nat) (p : Nat),
      (acc.1.heap p).collector_mark = e →
      (ms.foldl (sweepStep e) acc).1.heap p = acc.1.heap p := by
  intro ms
  induction ms with
  | nil => intro acc p _; rfl
  | cons w ws ih =>
    intro acc p hm
    rw [List.foldl_cons]
    rw [ih (sweepStep e acc w) p (by rw [sweepStep_mark]; exact hm)]
    exact sweepStep_skip_marked e acc w p hm

/-! The remaining claims about `mark_and_sweep`. -/

/-- C2: after `mark_and_sweep` returns, every tracked payload that is still
alive, is unreachable from the roots, and whose mark differed from the new
epoch immediately before the sweep pass has all of its managed handle fields
cleared.  (The code reaches this conclusion from the mark test alone; the
unreachability hypothesis is part of the claim but is not needed.) -/
theorem sweep_clears_unmarked_alive (thr : ℚ) (fuel e : Nat) (c : Col)
    (p : Nat) (hmem : p ∈ c.memory)
    (halive : p ∈ (mark_and_sweep thr fuel e c).col.alive)
    (hunreach : ¬ Reaches c.heap c.root_list p)
    (hmark : ((msMarkedCol fuel e c).heap p).collector_mark ≠ (e + 1) % 256) :
    ∀ f ∈ ((mark_and_sweep thr fuel e c).col.heap p).fields, f = none := by
  rw [ms_col_heap]
  rw [ms_col_alive] at halive
  exact sweepFold_clears ((e + 1) % 256) (msMarkedCol fuel e c).memory
    (msMarkedCol fuel e c, []) p hmem halive hmark

/-- C3 (amended): after `mark_and_sweep` returns, every payload reachable
from the roots carries the new epoch as its mark — provided no reachable
payload was already carrying that epoch value when the call started (the
epoch-wraparound collision, exhibited by the counterexample, blocks the
depth-first trace and can leave a reachable payload unmarked). -/
theorem mark_and_sweep_marks_reachable (thr : ℚ) (fuel e : Nat) (c : Col)
    (p : Nat) (hcl : Closed c) (hfuel : c.nextId < fuel)
    (hnc : ∀ q, Reaches c.heap c.root_list q →
      (c.heap q).collector_mark ≠ (e + 1) % 256)
    (hp : Reaches c.heap c.root_list p) :
    ((mark_and_sweep thr fuel e c).col.heap p).collector_mark =
      (e + 1) % 256 := by
  rw [ms_col_heap]
  rw [show msSwept fuel e c = ((msMarkedCol fuel e c).memory).foldl
      (sweepStep ((e + 1) % 256)) (msMarkedCol fuel e c, []) from rfl]
  rw [sweepFold_mark]
  exact markList_complete ((e + 1) % 256) c.nextId fuel c.heap c.root_list
    hcl.1 hcl.2 (lt_of_le_of_lt (unmarkedCount_le _ _ _) hfuel) hnc p hp

/-- C4 (amended): during `mark_and_sweep`, the reset callback fires only on
payloads whose mark differs from the new epoch at sweep time; provided no
payload reachable from the roots was already carrying the new epoch before
marking, it therefore never fires on a payload reachable from the roots.
(Without that proviso the counterexample shows a reachable payload being
reset.) -/
theorem resets_only_unreachable (thr : ℚ) (fuel e : Nat) (c : Col) (p : Nat)
    (hcl : Closed c) (hfuel : c.nextId < fuel)
    (hnc : ∀ q, Reaches c.heap c.root_list q →
      (c.heap q).collector_mark ≠ (e + 1) % 256)
    (hp : p ∈ (mark_and_sweep thr fuel e c).resets) :
    ¬ Reaches c.heap c.root_list p := by
  intro hreach
  rw [ms_resets] at hp
  rcases sweepFold_resets ((e + 1) % 256) (msMarkedCol fuel e c).memory
    (msMarkedCol fuel e c, []) p hp with h1 | h1
  · cases h1
  · exact h1 (markList_complete ((e + 1) % 256) c.nextId fuel c.heap
      c.root_list hcl.1 hcl.2
      (lt_of_le_of_lt (unmarkedCount_le _ _ _) hfuel) hnc p hreach)

/-- C5 (amended): a tracked payload whose mark equals the epoch value the
collection will use — `(epoch + 1) % 256`, since `mark_and_sweep` bumps the
epoch before marking — keeps all its managed handle fields through the
call.  (Setting the mark to the pre-bump epoch does not protect it, as the
counterexample shows.) -/
theorem mark_next_epoch_keeps_fields (thr : ℚ) (fuel e : Nat) (c : Col)
    (p : Nat) (hmem : p ∈ c.memory)
    (hm : (c.heap p).collector_mark = (e + 1) % 256) :
    ((mark_and_sweep thr fuel e c).col.heap p).fields = (c.heap p).fields := by
  rw [ms_col_heap]
  have h1 : ((msMarkedCol fuel e c).heap p).collector_mark = (e + 1) % 256 :=
    markEvolves_marked (markList_evolves ((e + 1) % 256) fuel c.heap
      c.root_list) p hm
  rw [show msSwept fuel e c = ((msMarkedCol fuel e c).memory).foldl
      (sweepStep ((e + 1) % 256)) (msMarkedCol fuel e c, []) from rfl]
  rw [sweepFold_skip_marked ((e + 1) % 256) (msMarkedCol fuel e c).memory
    (msMarkedCol fuel e c, []) p h1]
  exact (markList_evolves ((e + 1) % 256) fuel c.heap c.root_list p).1

/-- C9: a collection cycle terminates on any object graph, cycles included:
the mark recursion never re-traces an already-marked payload, so once the
fuel exceeds the number of allocated payloads the entire `mark_and_sweep`
result no longer depends on it (and sweep and compaction are single
traversals of the tracked vector by construction). -/
theorem mark_and_sweep_fuel_stable (thr : ℚ) (e : Nat) (c : Col)
    (f1 f2 : Nat) (hcl : Closed c) (h1 : c.nextId < f1)
    (h2 : c.nextId < f2) :
    mark_and_sweep thr f1 e c = mark_and_sweep thr f2 e c := by
  have hml : markList ((e + 1) % 256) f1 c.heap c.root_list =
      markList ((e + 1) % 256) f2 c.heap c.root_list :=
    markList_fuel_irrel ((e + 1) % 256) c.nextId f1 f2 c.heap c.root_list
      hcl.1 hcl.2 (lt_of_le_of_lt (unmarkedCount_le _ _ _) h1)
      (lt_of_le_of_lt (unmarkedCount_le _ _ _) h2)
  have hcol : msMarkedCol f1 e c = msMarkedCol f2 e c := by
    unfold msMarkedCol; rw [hml]
  unfold mark_and_sweep msSwept
  rw [hcol]

/-! Concrete counterexamples and witnesses. -/

theorem reaches_nil (h : Nat → Payload) (p : Nat) :
    ¬ Reaches h [] p := by
  intro hr
  induction hr with
  | root p hmem => simp at hmem
  | step q p hq hf ih => exact ih

theorem reaches_cex3_two : Reaches cex3.heap cex3.root_list 2 := by
  have h0 : Reaches cex3.heap cex3.root_list 0 :=
    Reaches.root 0 (by decide)
  have h1 : Reaches cex3.heap cex3.root_list 1 :=
    Reaches.step 0 1 h0 (by decide)
  exact Reaches.step 1 2 h1 (by decide)

theorem reaches_w3 : ∀ q, Reaches w3.heap w3.root_list q → q = 0 := by
  intro q hq
  induction hq with
  | root p hmem => simpa [w3] using hmem
  | step r p hr hf ih =>
    subst ih
    simp [w3, setPayload, pay0] at hf

/-- C3 counterexample: in `cex3`, payload `2` is reachable from the roots
through `0 → 1 → 2`, yet after `mark_and_sweep` its mark is not the new
epoch, because the intermediate payload `1` already carried the new epoch
value and stopped the trace. -/
theorem collision_reachable_unmarked_cex :
    Reaches cex3.heap cex3.root_list 2 ∧
    ((mark_and_sweep (1/2) 4 0 cex3).col.heap 2).collector_mark ≠
      (0 + 1) % 256 :=
  ⟨reaches_cex3_two, by rw [ms_col_heap]; decide⟩

/-- C4 counterexample: in the same collision state, the reset callback
fires on payload `2` even though `2` is reachable from the roots. -/
theorem reset_on_reachable_cex :
    2 ∈ (mark_and_sweep (1/2) 4 0 cex3).resets ∧
    Reaches cex3.heap cex3.root_list 2 :=
  ⟨by rw [ms_resets]; decide, reaches_cex3_two⟩

/-- C5 counterexample: payload `0` of `c2w` has its mark set to the current
epoch `0`; `mark_and_sweep` bumps the epoch first, so the payload's handle
fields are cleared rather than kept. -/
theorem mark_current_epoch_cleared_cex :
    0 ∈ c2w.memory ∧ (c2w.heap 0).collector_mark = 0 ∧
    ((mark_and_sweep (1/2) 3 0 c2w).col.heap 0).fields ≠
      (c2w.heap 0).fields :=
  ⟨by decide, by decide, by rw [ms_col_heap]; decide⟩

theorem sweep_clears_unmarked_alive_witness :
    0 ∈ c2w.memory ∧ 0 ∈ (mark_and_sweep (1/2) 3 0 c2w).col.alive ∧
    (¬ Reaches c2w.heap c2w.root_list 0) ∧
    ((msMarkedCol 3 0 c2w).heap 0).collector_mark ≠ (0 + 1) % 256 ∧
    (∀ f ∈ ((mark_and_sweep (1/2) 3 0 c2w).col.heap 0).fields, f = none) :=
  ⟨by decide, by rw [ms_col_alive]; decide, reaches_nil c2w.heap 0,
    by decide,
    sweep_clears_unmarked_alive (1/2) 3 0 c2w 0 (by decide)
      (by rw [ms_col_alive]; decide) (reaches_nil c2w.heap 0) (by decide)⟩

theorem mark_and_sweep_marks_reachable_witness :
    Closed w3 ∧ w3.nextId < 2 ∧ Reaches w3.heap w3.root_list 0 ∧
    ((mark_and_sweep (1/2) 2 0 w3).col.heap 0).collector_mark =
      (0 + 1) % 256 :=
  ⟨by decide, by decide, Reaches.root 0 (by decide),
    mark_and_sweep_marks_reachable (1/2) 2 0 w3 0 (by decide) (by decide)
      (fun q hq => by rw [reaches_w3 q hq]; decide)
      (Reaches.root 0 (by decide))⟩

theorem resets_only_unreachable_witness :
    Closed w4 ∧ w4.nextId < 2 ∧
    0 ∈ (mark_and_sweep (1/2) 2 0 w4).resets ∧
    ¬ Reaches w4.heap w4.root_list 0 :=
  ⟨by decide, by decide, by rw [ms_resets]; decide,
    resets_only_unreachable (1/2) 2 0 w4 0 (by decide) (by decide)
      (fun q hq => absurd hq (reaches_nil w4.heap q))
      (by rw [ms_resets]; decide)⟩

theorem mark_next_epoch_keeps_fields_witness :
    0 ∈ w5.memory ∧ (w5.heap 0).collector_mark = (0 + 1) % 256 ∧
    ((mark_and_sweep (1/2) 3 0 w5).col.heap 0).fields = (w5.heap 0).fields :=
  ⟨by decide, by decide,
    mark_next_epoch_keeps_fields (1/2) 3 0 w5 0 (by decide) (by decide)⟩

theorem mark_and_sweep_fuel_stable_witness :
    Closed w9 ∧ w9.nextId < 3 ∧ w9.nextId < 5 ∧
    mark_and_sweep (1/2) 3 0 w9 = mark_and_sweep (1/2) 5 0 w9 :=
  ⟨by decide, by decide, by decide,
    mark_and_sweep_fuel_stable (1/2) 0 w9 3 5 (by decide) (by decide)
      (by decide)⟩

end GcCollector
